import Mathlib

/-!
Verification of `src/csv-to-arff.py` (function `csv_to_arff`).

The Python function reads a CSV file into `allData : List (List String)`,
replaces empty cells by `"0"`, normalizes the data cells (lower-case, strip
line endings, escape quotes, quote non-numeric values), collects the distinct
values per column, infers a per-column type (`numeric` / `nominal`) and writes
an ARFF text file.  Only the file read and the file write are guarded by
`try`/`except`; every list access in between can raise an uncaught
`IndexError`.

We embed the function shallowly: the CSV read result becomes an explicit
input (`ReadResult`), the destination write becomes the produced string, and
the possible outcomes of a call are captured by `ConvResult` (clean reported
failure vs. uncaught exception vs. written content).
-/

namespace CsvToArff

/-- The double-quote character `"` (written via its code point). -/
def dq : Char := Char.ofNat 34

/-- The single-quote character (apostrophe), via its code point. -/
def sq : Char := Char.ofNat 39

/-- The backslash character, via its code point. -/
def bs : Char := Char.ofNat 92

/-- The linefeed character. -/
def nl : Char := Char.ofNat 10

/-- The carriage-return character. -/
def cr : Char := Char.ofNat 13

/-- Whitespace accepted (and stripped) by CPython `float(str)` around the
number: space, tab, LF, VT, FF, CR. -/
def isPyFloatSpace (c : Char) : Bool :=
  c = ' ' || c = Char.ofNat 9 || c = Char.ofNat 10 || c = Char.ofNat 11 ||
  c = Char.ofNat 12 || c = Char.ofNat 13

/-- Remove the characters satisfying `p` from both ends of a list
(the behaviour of Python `str.strip(chars)` with `chars` the set `p`). -/
def stripEnds (p : Char → Bool) (l : List Char) : List Char :=
  ((l.dropWhile p).reverse.dropWhile p).reverse

/-- Continue a CPython float digit-part after its first digit: further digits,
with single underscores allowed only between two digits.  Returns the
remaining input after the digit-part ends. -/
def digitTail : List Char → List Char
  | '_' :: c :: rest => if c.isDigit then digitTail rest else '_' :: c :: rest
  | c :: rest => if c.isDigit then digitTail rest else c :: rest
  | [] => []

/-- Parse a CPython float digit-part (at least one ASCII digit, underscores
allowed between digits); `none` if the input does not start with a digit,
otherwise the input remaining after the digit-part. -/
def parseDigitPart : List Char → Option (List Char)
  | c :: rest => if c.isDigit then some (digitTail rest) else none
  | [] => none

/-- Parse a CPython float exponent: `e`/`E`, optional sign, digit-part.
Returns the remaining input, `none` if no well-formed exponent starts here. -/
def parseExponent : List Char → Option (List Char)
  | c :: rest =>
    if c = 'e' || c = 'E' then
      match rest with
      | s :: rest2 =>
        if s = '+' || s = '-' then parseDigitPart rest2 else parseDigitPart rest
      | [] => none
    else none
  | [] => none

/-- Parse the mantissa of a CPython float literal:
`digits [. [digits]]` or `. digits`.  Returns the remaining input. -/
def parseNumber (l : List Char) : Option (List Char) :=
  match l with
  | '.' :: rest => parseDigitPart rest
  | _ =>
    match parseDigitPart l with
    | some r =>
      match r with
      | '.' :: r2 =>
        match parseDigitPart r2 with
        | some r3 => some r3
        | none => some r2
      | _ => some r
    | none => none

/-- Accept a full mantissa-plus-optional-exponent float body. -/
def pyFloatCore (l : List Char) : Bool :=
  match parseNumber l with
  | none => false
  | some rest =>
    match rest with
    | [] => true
    | _ =>
      match parseExponent rest with
      | some [] => true
      | _ => false

/-- Accept the special CPython float bodies `inf`, `infinity`, `nan`
(case-insensitively). -/
def isInfNan (l : List Char) : Bool :=
  let m := l.map Char.toLower
  m = "inf".toList || m = "infinity".toList || m = "nan".toList

/-- Model of CPython `float(s)` succeeding on a string `s`: optional
surrounding whitespace, optional sign, then a float literal body or one of
`inf`/`infinity`/`nan`.  (ASCII digits; the program only ever applies this to
text read from a CSV file.) -/
def pyFloatParses (s : String) : Bool :=
  let l := stripEnds isPyFloatSpace s.toList
  let body :=
    match l with
    | '+' :: rest => rest
    | '-' :: rest => rest
    | _ => l
  isInfNan body || pyFloatCore body

/-- Escape quote characters the way lines 81-82 of the source do:
`.replace(quote, backslash-quote)` for the single quote and then for the
double quote (the two replacements act on disjoint characters, so the
sequential Python replaces equal this one-pass map). -/
def escapeQuotes (l : List Char) : List Char :=
  (l.map (fun c =>
    if c = sq then [bs, sq] else if c = dq then [bs, dq] else [c])).flatten

/-- Lower-case a string character by character (Python `str.lower()`,
restricted to ASCII case mapping). -/
def lowerStr (l : List Char) : List Char :=
  l.map Char.toLower

/-- Normalization of one data cell, lines 80-86 of the source:
lower-case; `.strip(os.linesep).strip("\n").strip("\r")` (with `os.linesep`
= LF, so: strip LF from both ends, again, then strip CR from both ends);
escape quotes; and if the result does not parse as a Python float, wrap it in
double quotes. -/
def normalizeCell (s : String) : String :=
  let stripped :=
    stripEnds (fun c => c = cr)
      (stripEnds (fun c => c = nl) (stripEnds (fun c => c = nl) (lowerStr s.toList)))
  let t := String.mk (escapeQuotes stripped)
  if pyFloatParses t then t else String.mk [dq] ++ t ++ String.mk [dq]

/-- Errors a Python list access can raise in the unguarded section of the
code (lines 67-121): an out-of-range index. -/
inductive PyErr
  | indexError
  deriving DecidableEq, Repr

/-- Result of the guarded CSV read (lines 56-65): the file was missing, the
read raised some other exception, or the parsed rows. -/
inductive ReadResult
  | fileNotFound
  | readFailed
  | ok (rows : List (List String))
  deriving DecidableEq, Repr

/-- Outcome of one call of `csv_to_arff`: a failure was caught and reported
(the function returns normally, nothing written), an exception escaped the
function uncaught (nothing written), or the destination file was written with
the given content. -/
inductive ConvResult
  | reported
  | raised (e : PyErr)
  | written (content : String)
  deriving DecidableEq, Repr

/-- The empty-cell substitution applied to the first `totalCols` fields of a
row (lines 72-75, body): an empty field becomes `"0"`; fields past
`totalCols` are left untouched. -/
def emptyRowT (totalCols : Nat) (row : List String) : List String :=
  (row.take totalCols).map (fun c => if c = "" then "0" else c) ++ row.drop totalCols

/-- The empty-cell pass on one row: every column index `0 ≤ j < totalCols` is
accessed, so a row with fewer than `totalCols` fields raises `IndexError`. -/
def emptyCellRow (totalCols : Nat) (row : List String) :
    Except PyErr (List String) :=
  if totalCols ≤ row.length then .ok (emptyRowT totalCols row) else .error .indexError

/-- Apply a fallible row transformation to each row in order, stopping at
the first raised error (the semantics of the Python nested `for` loops, in
which the first out-of-range access aborts the whole function). -/
def rowsMapE (f : List String → Except PyErr (List String)) :
    List (List String) → Except PyErr (List (List String))
  | [] => .ok []
  | r :: rest =>
    match f r with
    | .error e => .error e
    | .ok r2 =>
      match rowsMapE f rest with
      | .error e => .error e
      | .ok rest2 => .ok (r2 :: rest2)

/-- The empty-cell pass (lines 71-75) over the whole grid, header row
included. -/
def emptyPass (totalCols : Nat) (grid : List (List String)) :
    Except PyErr (List (List String)) :=
  rowsMapE (emptyCellRow totalCols) grid

/-- The normalization applied to the first `totalCols` fields of a data row
(lines 80-86, body); fields past `totalCols` are left untouched. -/
def normRowT (totalCols : Nat) (row : List String) : List String :=
  (row.take totalCols).map normalizeCell ++ row.drop totalCols

/-- The normalization pass on one data row, with the same `IndexError`
behaviour as the empty-cell pass. -/
def normCellRow (totalCols : Nat) (row : List String) :
    Except PyErr (List String) :=
  if totalCols ≤ row.length then .ok (normRowT totalCols row) else .error .indexError

/-- The normalization pass (lines 77-86) over the data rows (rows
`1..totalRows-1`). -/
def normPass (totalCols : Nat) (dataRows : List (List String)) :
    Except PyErr (List (List String)) :=
  rowsMapE (normCellRow totalCols) dataRows

/-- Deduplication keeping the first occurrence of each value, the behaviour
of Python `list(dict.fromkeys(...))` (line 92). -/
def dedupAcc (seen : List String) : List String → List String
  | [] => []
  | a :: as =>
    if seen.contains a then dedupAcc seen as else a :: dedupAcc (a :: seen) as

/-- The normalized values of column `j` over the data rows, in row order
(lines 90-91). -/
def columnVals (j : Nat) (dataRows : List (List String)) : List String :=
  dataRows.map (fun r => r.getD j "")

/-- The brace list of distinct values of each column, first-occurrence order
(lines 89-94): one string per column index `0 ≤ j < totalCols`. -/
def uniqueOfColumnList (totalCols : Nat) (dataRows : List (List String)) :
    List String :=
  (List.range totalCols).map (fun j =>
    "\x7b" ++ String.intercalate "," (dedupAcc [] (columnVals j dataRows)) ++ "\x7d")

/-- The flattened row-major `dataType` list (lines 96-103): for each data row
and each column, `"numeric"` if the normalized cell float-parses, otherwise
`"nominal"`. -/
def dataTypeList (totalCols : Nat) (dataRows : List (List String)) : List String :=
  (dataRows.map (fun row =>
    (List.range totalCols).map (fun i =>
      if pyFloatParses (row.getD i "") then "numeric" else "nominal"))).flatten

/-- The per-column type (lines 105-114): the column-`j` slice of `dataType`
is gathered by stride (`dataType[j]`, `dataType[j+totalCols]`, ...); if it
contains `"nominal"` the column is `"nominal"`, else `"numeric"`. -/
def finalDataTypeList (totalCols totalRows : Nat) (dataType : List String) :
    List String :=
  (List.range totalCols).map (fun j =>
    let temp := (List.range (totalRows - 1)).map
      (fun i => dataType.getD (j + i * totalCols) "")
    if temp.contains "nominal" then "nominal" else "numeric")

/-- The declared domain of each attribute (lines 116-120): the brace list for
nominal columns, the word `numeric` otherwise. -/
def attTypesList (finalDT uniqueCols : List String) : List String :=
  (List.range finalDT.length).map (fun i =>
    if finalDT.getD i "" = "nominal" then uniqueCols.getD i "" else finalDT.getD i "")

/-- One `@attribute` output line per column (lines 130-131). -/
def attributeLines (totalCols : Nat) (attributes attTypes : List String) :
    List String :=
  (List.range totalCols).map (fun i =>
    "@attribute" ++ " " ++ String.mk [sq] ++ attributes.getD i "" ++ String.mk [sq]
      ++ " " ++ attTypes.getD i "" ++ "\n")

/-- One output line per data row (lines 133-134): the whole row (fields past
`totalCols` included) joined by commas. -/
def dataLines (dataRows : List (List String)) : List String :=
  dataRows.map (fun row => String.intercalate "," row ++ "\n")

/-- The full text written to the destination file (lines 125-134). -/
def arffContent (relation : String) (totalCols totalRows : Nat)
    (attributes attTypes : List String) (dataRows : List (List String)) : String :=
  "%\n% Comments go after a " ++ String.mk [sq] ++ "%" ++ String.mk [sq]
    ++ " sign.\n%\n"
  ++ "%\n% Relation: " ++ relation ++ "\n%\n%\n"
  ++ "% Attributes: " ++ toString totalCols ++ "     " ++ "Instances: "
    ++ toString (totalRows - 1) ++ "\n%\n%\n\n"
  ++ "@relation " ++ String.mk [dq] ++ relation ++ String.mk [dq] ++ "\n\n"
  ++ String.join (attributeLines totalCols attributes attTypes)
  ++ "\n@data\n"
  ++ String.join (dataLines dataRows)

/-- Shallow embedding of `csv_to_arff` (lines 37-139).  The guarded read is
the `ReadResult` input; a caught read error reports and returns (lines
60-65); `allData[0]` on an empty row list raises `IndexError` uncaught (line
67); the empty-cell pass and the normalization pass raise `IndexError`
uncaught on a row shorter than the header (lines 71-86); otherwise the ARFF
text is assembled and written.  `attributes` aliases `allData[0]`, so the
attribute names are read after the in-place empty-cell substitution. -/
def csv_to_arff (input : ReadResult) (relation : String) : ConvResult :=
  match input with
  | .fileNotFound => .reported
  | .readFailed => .reported
  | .ok allData =>
    match allData with
    | [] => .raised .indexError
    | header :: _ =>
      let totalCols := header.length
      let totalRows := allData.length
      match emptyPass totalCols allData with
      | .error e => .raised e
      | .ok grid1 =>
        let attributes := grid1.headD []
        match normPass totalCols grid1.tail with
        | .error e => .raised e
        | .ok dataRows2 =>
          let uniqueCols := uniqueOfColumnList totalCols dataRows2
          let finalDT :=
            finalDataTypeList totalCols totalRows (dataTypeList totalCols dataRows2)
          let attTypes := attTypesList finalDT uniqueCols
          .written (arffContent relation totalCols totalRows attributes attTypes dataRows2)

/-- The data rows as they stand after the empty-cell pass and the
normalization pass. -/
def normedRows (totalCols : Nat) (dataRows : List (List String)) :
    List (List String) :=
  dataRows.map (fun r => normRowT totalCols (emptyRowT totalCols r))

/-- The per-column final type list as computed by a successful run on a grid
with header `header` and raw data rows `dataRows`. -/
def pipelineFinalDT (header : List String) (dataRows : List (List String)) :
    List String :=
  finalDataTypeList header.length (dataRows.length + 1)
    (dataTypeList header.length (normedRows header.length dataRows))

/-- The per-column declared domain list as computed by a successful run. -/
def pipelineAttTypes (header : List String) (dataRows : List (List String)) :
    List String :=
  attTypesList (pipelineFinalDT header dataRows)
    (uniqueOfColumnList header.length (normedRows header.length dataRows))

/-- Index of the first occurrence of `x` in a list (length of the list when
absent); used to express first-occurrence order. -/
def firstIdx (x : String) : List String → Nat
  | [] => 0
  | a :: as => if a = x then 0 else firstIdx x as + 1

/-- True on LF and CR, the line-ending characters named by the spec. -/
def isLineEnd (c : Char) : Bool := c = nl || c = cr

/-- Remove the maximal trailing run of characters satisfying `p` (a direct
rendering of natural-language "strip trailing ... characters"). -/
def dropTrailing (p : Char → Bool) : List Char → List Char
  | [] => []
  | c :: rest =>
    if (dropTrailing p rest).isEmpty && p c then [] else c :: dropTrailing p rest

/-- Normalization as the claim words it: lower-case; strip trailing and
embedded LF/CR (leading ones are neither trailing nor embedded, so they
stay); escape quotes; double-quote the result iff it does not parse as a
float. -/
def specNormalizeCell (s : String) : String :=
  let low := lowerStr s.toList
  let core := low.takeWhile isLineEnd
    ++ (low.dropWhile isLineEnd).filter (fun c => !(isLineEnd c))
  let t := String.mk (escapeQuotes core)
  if pyFloatParses t then t else String.mk [dq] ++ t ++ String.mk [dq]

/-- Normalization as the code actually behaves: lower-case; drop the leading
and the trailing run of LF characters, then the leading and the trailing run
of CR characters (embedded line-ending characters are preserved); escape
quotes; double-quote iff the result does not parse as a float. -/
def specNormalizeCellAmended (s : String) : String :=
  let core := dropTrailing (fun c => c = cr)
    (((dropTrailing (fun c => c = nl)
        ((lowerStr s.toList).dropWhile (fun c => c = nl))).dropWhile
      (fun c => c = cr)))
  let t := String.mk (escapeQuotes core)
  if pyFloatParses t then t else String.mk [dq] ++ t ++ String.mk [dq]

section Lemmas

theorem length_emptyRowT (totalCols : Nat) (row : List String) :
    (emptyRowT totalCols row).length = row.length := by
  simp [emptyRowT]
  omega

theorem length_normRowT (totalCols : Nat) (row : List String) :
    (normRowT totalCols row).length = row.length := by
  simp [normRowT]
  omega

theorem getD_emptyRowT (totalCols : Nat) (row : List String) (j : Nat)
    (hj : j < totalCols) (hr : j < row.length) :
    (emptyRowT totalCols row).getD j "" =
      (if row.getD j "" = "" then "0" else row.getD j "") := by
  simp only [emptyRowT, List.getD_eq_getElem?_getD, List.getElem?_append,
    List.length_map, List.length_take]
  rw [if_pos (by omega)]
  simp [List.getElem?_map, List.getElem?_take, hj, hr, List.getElem?_eq_getElem]

theorem getD_normRowT (totalCols : Nat) (row : List String) (j : Nat)
    (hj : j < totalCols) (hr : j < row.length) :
    (normRowT totalCols row).getD j "" = normalizeCell (row.getD j "") := by
  simp only [normRowT, List.getD_eq_getElem?_getD, List.getElem?_append,
    List.length_map, List.length_take]
  rw [if_pos (by omega)]
  simp [List.getElem?_map, List.getElem?_take, hj, hr, List.getElem?_eq_getElem]

theorem emptyPass_ok (totalCols : Nat) (grid : List (List String))
    (h : ∀ r ∈ grid, totalCols ≤ r.length) :
    emptyPass totalCols grid = .ok (grid.map (emptyRowT totalCols)) := by
  induction grid with
  | nil => rfl
  | cons r rest ih =>
    have hr : totalCols ≤ r.length := h r (by simp)
    have hrest := ih (fun s hs => h s (by simp [hs]))
    simp only [emptyPass, rowsMapE] at *
    simp [emptyCellRow, hr, hrest]

theorem normPass_ok (totalCols : Nat) (dataRows : List (List String))
    (h : ∀ r ∈ dataRows, totalCols ≤ r.length) :
    normPass totalCols dataRows = .ok (dataRows.map (normRowT totalCols)) := by
  induction dataRows with
  | nil => rfl
  | cons r rest ih =>
    have hr : totalCols ≤ r.length := h r (by simp)
    have hrest := ih (fun s hs => h s (by simp [hs]))
    simp only [normPass, rowsMapE] at *
    simp [normCellRow, hr, hrest]

theorem emptyPass_err (totalCols : Nat) (grid : List (List String))
    (h : ∃ r ∈ grid, r.length < totalCols) :
    emptyPass totalCols grid = .error .indexError := by
  induction grid with
  | nil => simp at h
  | cons r rest ih =>
    simp only [emptyPass, rowsMapE]
    by_cases hr : totalCols ≤ r.length
    · rcases h with ⟨s, hs, hlen⟩
      rcases List.mem_cons.mp hs with hs1 | hs2
      · subst hs1; omega
      · have hrest := ih ⟨s, hs2, hlen⟩
        simp only [emptyPass] at hrest
        simp [emptyCellRow, hr, hrest]
    · simp [emptyCellRow, hr]

theorem csv_to_arff_run (header : List String) (dataRows : List (List String))
    (relation : String)
    (hLen : ∀ r ∈ header :: dataRows, header.length ≤ r.length) :
    csv_to_arff (.ok (header :: dataRows)) relation =
      .written (arffContent relation header.length (dataRows.length + 1)
        (emptyRowT header.length header)
        (attTypesList
          (finalDataTypeList header.length (dataRows.length + 1)
            (dataTypeList header.length (normedRows header.length dataRows)))
          (uniqueOfColumnList header.length (normedRows header.length dataRows)))
        (normedRows header.length dataRows)) := by
  have hE := emptyPass_ok header.length (header :: dataRows) hLen
  have hLen2 : ∀ r ∈ (header :: dataRows).map (emptyRowT header.length),
      header.length ≤ r.length := by
    intro r hr
    rcases List.mem_map.mp hr with ⟨s, hs, rfl⟩
    rw [length_emptyRowT]
    exact hLen s hs
  have hN := normPass_ok header.length
    (((header :: dataRows).map (emptyRowT header.length)).tail)
    (fun r hr => hLen2 r (List.mem_of_mem_tail hr))
  simp only [csv_to_arff, hE, List.map_cons, List.tail_cons] at *
  simp only [hN, List.headD_cons, List.map_map]
  rfl

theorem getD_range_map (n j : Nat) (d : String) (f : Nat → String)
    (hj : j < n) : (((List.range n).map f).getD j d) = f j := by
  simp [List.getD_eq_getElem?_getD, List.getElem?_range, hj]

theorem dataTypeList_stride (totalCols : Nat) (rows : List (List String))
    (i j : Nat) (hj : j < totalCols) (hi : i < rows.length) :
    (dataTypeList totalCols rows).getD (j + i * totalCols) "" =
      (if pyFloatParses ((rows.getD i []).getD j "") then "numeric"
       else "nominal") := by
  induction rows generalizing i with
  | nil => simp at hi
  | cons r rest ih =>
    simp only [dataTypeList, List.map_cons, List.flatten_cons]
    cases i with
    | zero =>
      simp only [Nat.zero_mul, Nat.add_zero]
      rw [List.getD_eq_getElem?_getD, List.getElem?_append]
      rw [if_pos (by simp [hj])]
      rw [← List.getD_eq_getElem?_getD, getD_range_map _ _ _ _ hj]
      simp
    | succ i2 =>
      have hexp2 : (i2 + 1) * totalCols = i2 * totalCols + totalCols := by ring
      rw [List.getD_eq_getElem?_getD, List.getElem?_append]
      rw [if_neg (by simp only [List.length_map, List.length_range]; omega)]
      simp only [List.length_map, List.length_range]
      have harith : j + (i2 + 1) * totalCols - totalCols = j + i2 * totalCols := by
        omega
      rw [harith, ← List.getD_eq_getElem?_getD]
      have hres := ih i2 (by simpa using Nat.lt_of_succ_lt_succ hi)
      simpa [dataTypeList] using hres

theorem finalDT_getD (totalCols : Nat) (dataRows : List (List String))
    (j : Nat) (hj : j < totalCols) :
    (finalDataTypeList totalCols (dataRows.length + 1)
        (dataTypeList totalCols dataRows)).getD j "" =
      (if ∀ i, i < dataRows.length →
          pyFloatParses ((dataRows.getD i []).getD j "") then "numeric"
       else "nominal") := by
  rw [finalDataTypeList, getD_range_map _ _ _ _ hj]
  simp only [Nat.add_sub_cancel]
  by_cases h : ∀ i, i < dataRows.length →
      pyFloatParses ((dataRows.getD i []).getD j "") = true
  · rw [if_pos h]
    have hm : "nominal" ∉ (List.range dataRows.length).map
        (fun i => (dataTypeList totalCols dataRows).getD (j + i * totalCols) "") := by
      intro hmem
      rcases List.mem_map.mp hmem with ⟨k, hk, hkval⟩
      rw [dataTypeList_stride totalCols dataRows k j hj (List.mem_range.mp hk),
        if_pos (h k (List.mem_range.mp hk))] at hkval
      exact absurd hkval (by decide)
    have hcont : ((List.range dataRows.length).map
        (fun i => (dataTypeList totalCols dataRows).getD (j + i * totalCols) "")).contains
          "nominal" = false := by
      simp only [List.contains, List.elem_eq_mem]
      exact decide_eq_false hm
    rw [hcont]
    rfl
  · rw [if_neg h]
    push_neg at h
    rcases h with ⟨k, hk, hkval⟩
    have hm : "nominal" ∈ (List.range dataRows.length).map
        (fun i => (dataTypeList totalCols dataRows).getD (j + i * totalCols) "") := by
      refine List.mem_map.mpr ⟨k, List.mem_range.mpr hk, ?_⟩
      rw [dataTypeList_stride totalCols dataRows k j hj hk,
        if_neg (by simpa using hkval)]
    have hcont : ((List.range dataRows.length).map
        (fun i => (dataTypeList totalCols dataRows).getD (j + i * totalCols) "")).contains
          "nominal" = true := by
      simp only [List.contains, List.elem_eq_mem]
      exact decide_eq_true hm
    rw [hcont]
    rfl

theorem mem_dedupAcc (x : String) (seen l : List String) :
    x ∈ dedupAcc seen l ↔ x ∈ l ∧ x ∉ seen := by
  induction l generalizing seen with
  | nil => simp [dedupAcc]
  | cons a as ih =>
    simp only [dedupAcc]
    by_cases ha : seen.contains a
    · rw [if_pos ha]
      rw [ih]
      have haseen : a ∈ seen := by simpa [List.contains] using ha
      constructor
      · rintro ⟨hx, hns⟩
        exact ⟨List.mem_cons_of_mem _ hx, hns⟩
      · rintro ⟨hx, hns⟩
        rcases List.mem_cons.mp hx with rfl | hx2
        · exact absurd haseen hns
        · exact ⟨hx2, hns⟩
    · rw [if_neg ha]
      have haseen : a ∉ seen := by simpa [List.contains] using ha
      constructor
      · intro hx
        rcases List.mem_cons.mp hx with rfl | hx2
        · exact ⟨List.mem_cons_self _ _, haseen⟩
        · rcases (ih (a :: seen)).mp hx2 with ⟨h1, h2⟩
          refine ⟨List.mem_cons_of_mem _ h1, fun hc => h2 (List.mem_cons_of_mem _ hc)⟩
      · rintro ⟨hx, hns⟩
        rcases List.mem_cons.mp hx with rfl | hx2
        · exact List.mem_cons_self _ _
        · by_cases hxa : x = a
          · subst hxa; exact List.mem_cons_self _ _
          · exact List.mem_cons_of_mem _ ((ih (a :: seen)).mpr
              ⟨hx2, by simp [hxa, hns]⟩)

theorem nodup_dedupAcc (seen l : List String) : (dedupAcc seen l).Nodup := by
  induction l generalizing seen with
  | nil => simp [dedupAcc]
  | cons a as ih =>
    simp only [dedupAcc]
    by_cases ha : seen.contains a
    · rw [if_pos ha]; exact ih seen
    · rw [if_neg ha]
      refine List.nodup_cons.mpr ⟨?_, ih (a :: seen)⟩
      intro hmem
      exact ((mem_dedupAcc a (a :: seen) as).mp hmem).2 (List.mem_cons_self _ _)

theorem firstIdx_cons_self (x : String) (l : List String) :
    firstIdx x (x :: l) = 0 := by
  simp [firstIdx]

theorem firstIdx_cons_ne (x a : String) (l : List String) (h : a ≠ x) :
    firstIdx x (a :: l) = firstIdx x l + 1 := by
  simp [firstIdx, h]

theorem pairwise_firstIdx_dedupAcc (seen l : List String) :
    (dedupAcc seen l).Pairwise (fun a b => firstIdx a l < firstIdx b l) := by
  induction l generalizing seen with
  | nil => simp [dedupAcc]
  | cons c rest ih =>
    simp only [dedupAcc]
    by_cases hc : seen.contains c
    · rw [if_pos hc]
      have hcseen : c ∈ seen := by simpa [List.contains] using hc
      refine List.Pairwise.imp_of_mem ?_ (ih seen)
      intro a b ha hb hlt
      have hanotseen := ((mem_dedupAcc a seen rest).mp ha).2
      have hbnotseen := ((mem_dedupAcc b seen rest).mp hb).2
      have hac : a ≠ c := fun h => hanotseen (h ▸ hcseen)
      have hbc : b ≠ c := fun h => hbnotseen (h ▸ hcseen)
      rw [firstIdx_cons_ne a c rest hac.symm, firstIdx_cons_ne b c rest hbc.symm]
      omega
    · rw [if_neg hc]
      refine List.pairwise_cons.mpr ⟨?_, ?_⟩
      · intro b hb
        have hbnot := ((mem_dedupAcc b (c :: seen) rest).mp hb).2
        have hbc : b ≠ c := fun h => hbnot (h ▸ List.mem_cons_self _ _)
        rw [firstIdx_cons_self, firstIdx_cons_ne b c rest hbc.symm]
        omega
      · refine List.Pairwise.imp_of_mem ?_ (ih (c :: seen))
        intro a b ha hb hlt
        have hanot := ((mem_dedupAcc a (c :: seen) rest).mp ha).2
        have hbnot := ((mem_dedupAcc b (c :: seen) rest).mp hb).2
        have hac : a ≠ c := fun h => hanot (h ▸ List.mem_cons_self _ _)
        have hbc : b ≠ c := fun h => hbnot (h ▸ List.mem_cons_self _ _)
        rw [firstIdx_cons_ne a c rest hac.symm, firstIdx_cons_ne b c rest hbc.symm]
        omega

end Lemmas

section StripLemmas

theorem dropTrailing_append_single (p : Char → Bool) (ms : List Char) (c : Char) :
    dropTrailing p (ms ++ [c]) =
      (if p c then dropTrailing p ms else ms ++ [c]) := by
  induction ms with
  | nil =>
    by_cases hc : p c <;> simp [dropTrailing, hc]
  | cons a ms2 ih =>
    by_cases hc : p c
    · rw [if_pos hc] at *
      rw [List.cons_append, dropTrailing, ih]
      conv_rhs => rw [dropTrailing]
    · rw [if_neg hc] at *
      rw [List.cons_append, dropTrailing, ih]
      simp

theorem reverse_dropWhile_reverse (p : Char → Bool) (m : List Char) :
    ((m.reverse).dropWhile p).reverse = dropTrailing p m := by
  induction m using List.reverseRecOn with
  | nil => rfl
  | append_singleton ms c ih =>
    rw [dropTrailing_append_single]
    by_cases hc : p c
    · rw [if_pos hc, ← ih]
      simp [List.dropWhile_cons, hc]
    · rw [if_neg hc]
      simp [List.dropWhile_cons, hc]

theorem stripEnds_eq (p : Char → Bool) (l : List Char) :
    stripEnds p l = dropTrailing p (l.dropWhile p) := by
  rw [stripEnds, reverse_dropWhile_reverse]

theorem dropWhile_dropWhile_self (p : Char → Bool) (l : List Char) :
    (l.dropWhile p).dropWhile p = l.dropWhile p := by
  induction l with
  | nil => rfl
  | cons c rest ih =>
    by_cases hc : p c
    · simp [List.dropWhile_cons, hc, ih]
    · simp [List.dropWhile_cons, hc]

theorem dropTrailing_eq_nil_iff (p : Char → Bool) (l : List Char) :
    dropTrailing p l = [] ↔ ∀ x ∈ l, p x := by
  induction l with
  | nil => simp [dropTrailing]
  | cons c rest ih =>
    simp only [dropTrailing, List.mem_cons]
    by_cases hcond : (dropTrailing p rest).isEmpty && p c
    · rw [if_pos hcond]
      rcases Bool.and_eq_true_iff.mp hcond with ⟨h1, h2⟩
      have hrest := ih.mp (List.isEmpty_iff.mp h1)
      constructor
      · intro _ x hx
        rcases hx with rfl | hx2
        · exact h2
        · exact hrest x hx2
      · intro _; rfl
    · rw [if_neg hcond]
      constructor
      · intro hcontra; exact absurd hcontra (List.cons_ne_nil _ _)
      · intro hall
        exfalso
        apply hcond
        refine Bool.and_eq_true_iff.mpr ⟨?_, hall c (Or.inl rfl)⟩
        exact List.isEmpty_iff.mpr (ih.mpr (fun x hx => hall x (Or.inr hx)))

theorem dropTrailing_dropTrailing_self (p : Char → Bool) (l : List Char) :
    dropTrailing p (dropTrailing p l) = dropTrailing p l := by
  induction l with
  | nil => rfl
  | cons c rest ih =>
    by_cases hcond : (dropTrailing p rest).isEmpty && p c
    · simp [dropTrailing, hcond]
    · simp only [dropTrailing, if_neg hcond]
      rw [if_neg (by rwa [ih]), ih]

theorem dropWhile_dropTrailing_comm (p : Char → Bool) (m : List Char) :
    (dropTrailing p m).dropWhile p = dropTrailing p (m.dropWhile p) := by
  induction m with
  | nil => rfl
  | cons c rest ih =>
    by_cases hc : p c
    · by_cases h0 : dropTrailing p rest = []
      · have hall := (dropTrailing_eq_nil_iff p rest).mp h0
        have hrest : rest.dropWhile p = [] :=
          List.dropWhile_eq_nil_iff.mpr hall
        simp [dropTrailing, h0, List.isEmpty_iff, hc, List.dropWhile_cons, hrest]
      · have hcond : ¬ ((dropTrailing p rest).isEmpty && p c) := by
          simp [List.isEmpty_iff, h0]
        simp only [dropTrailing, if_neg hcond]
        rw [List.dropWhile_cons_of_pos hc, ih, List.dropWhile_cons_of_pos hc]
    · have hcond : ¬ ((dropTrailing p rest).isEmpty && p c) := by
        simp [hc]
      simp only [dropTrailing, if_neg hcond]
      rw [List.dropWhile_cons_of_neg hc, List.dropWhile_cons_of_neg hc]
      simp only [dropTrailing, if_neg hcond]

theorem stripEnds_idem (p : Char → Bool) (l : List Char) :
    stripEnds p (stripEnds p l) = stripEnds p l := by
  rw [stripEnds_eq p l, stripEnds_eq p (dropTrailing p (l.dropWhile p)),
    dropWhile_dropTrailing_comm p (l.dropWhile p), dropWhile_dropWhile_self,
    dropTrailing_dropTrailing_self]

end StripLemmas

section PipelineLemmas

theorem getD_map_rows (f : List String → List String) (rows : List (List String))
    (i : Nat) (hi : i < rows.length) :
    (rows.map f).getD i [] = f (rows.getD i []) := by
  simp [List.getD_eq_getElem?_getD, List.getElem?_map, List.getElem?_eq_getElem, hi]

theorem getD_mem_of_lt {α : Type} (l : List α) (i : Nat) (d : α)
    (hi : i < l.length) : l.getD i d ∈ l := by
  rw [List.getD_eq_getElem?_getD, List.getElem?_eq_getElem hi]
  exact List.getElem_mem hi

theorem normalizeCell_eq_amended_strip (s : String) :
    normalizeCell s = specNormalizeCellAmended s := by
  simp only [normalizeCell, specNormalizeCellAmended]
  rw [stripEnds_idem (fun c => c = nl) (lowerStr s.toList),
    stripEnds_eq (fun c => c = nl) (lowerStr s.toList),
    stripEnds_eq (fun c => c = cr)]

theorem length_finalDataTypeList (totalCols totalRows : Nat) (dt : List String) :
    (finalDataTypeList totalCols totalRows dt).length = totalCols := by
  simp [finalDataTypeList]

theorem attTypes_getD_nominal (finalDT uniqueCols : List String) (j : Nat)
    (hj : j < finalDT.length) (hnom : finalDT.getD j "" = "nominal") :
    (attTypesList finalDT uniqueCols).getD j "" = uniqueCols.getD j "" := by
  rw [attTypesList, getD_range_map _ _ _ _ hj, if_pos hnom]

theorem uniqueOfColumn_getD (totalCols : Nat) (dataRows : List (List String))
    (j : Nat) (hj : j < totalCols) :
    (uniqueOfColumnList totalCols dataRows).getD j "" =
      "\x7b" ++ String.intercalate "," (dedupAcc [] (columnVals j dataRows))
        ++ "\x7d" := by
  rw [uniqueOfColumnList, getD_range_map _ _ _ _ hj]

theorem length_normedRows (totalCols : Nat) (dataRows : List (List String)) :
    (normedRows totalCols dataRows).length = dataRows.length := by
  simp [normedRows]

theorem pipelineFinalDT_getD (header : List String)
    (dataRows : List (List String)) (j : Nat) (hj : j < header.length) :
    (pipelineFinalDT header dataRows).getD j "" =
      (if ∀ i, i < dataRows.length →
          pyFloatParses (((normedRows header.length dataRows).getD i []).getD j "")
       then "numeric" else "nominal") := by
  have hkey := finalDT_getD header.length (normedRows header.length dataRows) j hj
  rw [length_normedRows] at hkey
  exact hkey

theorem csv_to_arff_run_pipeline (header : List String)
    (dataRows : List (List String)) (relation : String)
    (hLen : ∀ r ∈ header :: dataRows, header.length ≤ r.length) :
    csv_to_arff (.ok (header :: dataRows)) relation =
      .written (arffContent relation header.length (dataRows.length + 1)
        (emptyRowT header.length header) (pipelineAttTypes header dataRows)
        (normedRows header.length dataRows)) := by
  rw [csv_to_arff_run header dataRows relation hLen]
  rfl

theorem normedRows_getD_getD (header : List String)
    (dataRows : List (List String)) (i j : Nat) (hi : i < dataRows.length)
    (hj : j < header.length)
    (hLen : ∀ r ∈ header :: dataRows, header.length ≤ r.length) :
    ((normedRows header.length dataRows).getD i []).getD j "" =
      normalizeCell
        (if (dataRows.getD i []).getD j "" = "" then "0"
         else (dataRows.getD i []).getD j "") := by
  have hr : header.length ≤ (dataRows.getD i []).length :=
    hLen _ (List.mem_cons_of_mem _ (getD_mem_of_lt dataRows i [] hi))
  rw [normedRows, getD_map_rows _ _ _ hi,
    getD_normRowT _ _ _ hj (by rw [length_emptyRowT]; omega),
    getD_emptyRowT _ _ _ hj (by omega)]

end PipelineLemmas

section Claims

/-- Claim C1: for every input table and every column, the conversion emits
the column's type as numeric iff the normalized value of every data-row cell
in that column parses as a floating-point number; if any cell fails to
parse, the emitted type is nominal.  (`pipelineFinalDT` is the type list a
successful run embeds into the written ARFF text, as the first conjunct
records.) -/
theorem claim1_numeric_iff_all_cells_parse (header : List String)
    (dataRows : List (List String)) (relation : String) (j : Nat)
    (hj : j < header.length)
    (hLen : ∀ r ∈ header :: dataRows, header.length ≤ r.length) :
    csv_to_arff (.ok (header :: dataRows)) relation =
      .written (arffContent relation header.length (dataRows.length + 1)
        (emptyRowT header.length header) (pipelineAttTypes header dataRows)
        (normedRows header.length dataRows))
    ∧ ((pipelineFinalDT header dataRows).getD j "" = "numeric"
        ↔ ∀ i, i < dataRows.length →
            pyFloatParses (((normedRows header.length dataRows).getD i []).getD j ""))
    ∧ (¬ (∀ i, i < dataRows.length →
            pyFloatParses (((normedRows header.length dataRows).getD i []).getD j "")) →
        (pipelineFinalDT header dataRows).getD j "" = "nominal") := by
  refine ⟨csv_to_arff_run_pipeline header dataRows relation hLen, ?_, ?_⟩
  · rw [pipelineFinalDT_getD header dataRows j hj]
    by_cases hall : ∀ i, i < dataRows.length →
        pyFloatParses (((normedRows header.length dataRows).getD i []).getD j "") = true
    · rw [if_pos hall]
      exact ⟨fun _ => hall, fun _ => rfl⟩
    · rw [if_neg hall]
      exact ⟨fun h => absurd h (by decide), fun h => absurd h hall⟩
  · intro hnot
    rw [pipelineFinalDT_getD header dataRows j hj, if_neg hnot]

/-- Witness for C1 at the table with header `a` and one data row `1`. -/
theorem claim1_witness :
    ((0 : Nat) < (["a"] : List String).length
      ∧ ∀ r ∈ ([["a"], ["1"]] : List (List String)),
          (["a"] : List String).length ≤ r.length)
    ∧ (csv_to_arff (.ok [["a"], ["1"]]) "r" =
        .written (arffContent "r" (["a"] : List String).length
          (([["1"]] : List (List String)).length + 1)
          (emptyRowT (["a"] : List String).length ["a"])
          (pipelineAttTypes ["a"] [["1"]])
          (normedRows (["a"] : List String).length [["1"]]))
      ∧ ((pipelineFinalDT ["a"] [["1"]]).getD 0 "" = "numeric"
          ↔ ∀ i, i < ([["1"]] : List (List String)).length →
              pyFloatParses (((normedRows (["a"] : List String).length
                [["1"]]).getD i []).getD 0 ""))
      ∧ (¬ (∀ i, i < ([["1"]] : List (List String)).length →
              pyFloatParses (((normedRows (["a"] : List String).length
                [["1"]]).getD i []).getD 0 "")) →
          (pipelineFinalDT ["a"] [["1"]]).getD 0 "" = "nominal")) :=
  ⟨⟨by decide, by decide⟩,
    claim1_numeric_iff_all_cells_parse ["a"] [["1"]] "r" 0 (by decide) (by decide)⟩

/-- Counterexample to claim C2: on a source whose second row is shorter than
the header, the call does not return normally — the out-of-range access in
the empty-cell pass raises an uncaught `IndexError` to the caller, so it is
false that all errors are caught inside the call. -/
theorem claim2_counterexample :
    csv_to_arff (.ok [["a", "b"], ["x"]]) "r" = .raised .indexError := by
  decide

/-- Amended claim C2: only the file read is guarded; for a source with a row
shorter than the header, the out-of-range field access in the empty-cell
pass raises an uncaught `IndexError` that propagates to the caller, and no
destination content is written. -/
theorem claim2_amended_short_row_raises (allData : List (List String))
    (relation : String)
    (h : ∃ r ∈ allData, r.length < (allData.headD []).length) :
    csv_to_arff (.ok allData) relation = .raised .indexError
    ∧ ∀ content, csv_to_arff (.ok allData) relation ≠ .written content := by
  cases allData with
  | nil =>
    exfalso
    rcases h with ⟨r, hr, _⟩
    exact absurd hr (List.not_mem_nil r)
  | cons header rest =>
    rw [List.headD_cons] at h
    have hE := emptyPass_err header.length (header :: rest) h
    constructor
    · simp [csv_to_arff, hE]
    · intro content hc
      simp [csv_to_arff, hE] at hc

/-- Witness for the amended C2 on a three-column header with a two-field
data row. -/
theorem claim2_amended_witness :
    (∃ r ∈ ([["a", "b", "c"], ["x", "y"]] : List (List String)),
      r.length < (([["a", "b", "c"], ["x", "y"]] :
        List (List String)).headD []).length)
    ∧ (csv_to_arff (.ok [["a", "b", "c"], ["x", "y"]]) "rel" =
        .raised .indexError
      ∧ ∀ content, csv_to_arff (.ok [["a", "b", "c"], ["x", "y"]]) "rel" ≠
          .written content) :=
  ⟨by decide,
    claim2_amended_short_row_raises [["a", "b", "c"], ["x", "y"]] "rel" (by decide)⟩

/-- Counterexample to claim C3: the code's normalization does NOT strip an
embedded LF (Python `str.strip` only touches the ends of the string), so on
the cell `a\nb` the code's result keeps the LF while the claimed
normalization removes it. -/
theorem claim3_counterexample :
    normalizeCell "a\nb" ≠ specNormalizeCell "a\nb" := by
  decide

/-- Amended claim C3: a data cell is normalized by lower-casing; dropping
the leading and the trailing run of LF characters and then the leading and
the trailing run of CR characters (embedded line endings are preserved);
prefixing every single-quote and double-quote character with a backslash;
and wrapping the result in double quotes iff it does not parse as a
floating-point number. -/
theorem claim3_amended_normalization (s : String) :
    normalizeCell s = specNormalizeCellAmended s :=
  normalizeCell_eq_amended_strip s

/-- Claim C7: when the source path does not resolve to a readable file the
conversion reports the failure and returns, and no destination content is
ever produced. -/
theorem claim7_missing_source_writes_nothing (relation : String) :
    csv_to_arff .fileNotFound relation = .reported
    ∧ ∀ content, csv_to_arff .fileNotFound relation ≠ .written content := by
  refine ⟨rfl, ?_⟩
  intro content h
  simp [csv_to_arff] at h

/-- Claim C8: the conversion is a deterministic function of the source table
contents and the relation name — two runs on equal inputs produce equal
(hence byte-identical) destination output. -/
theorem claim8_deterministic (input1 input2 : ReadResult) (rel1 rel2 : String)
    (hinput : input1 = input2) (hrel : rel1 = rel2) :
    csv_to_arff input1 rel1 = csv_to_arff input2 rel2 := by
  rw [hinput, hrel]

/-- Witness for C8 on a concrete table. -/
theorem claim8_witness :
    (ReadResult.ok [["a"], ["1"]] = ReadResult.ok [["a"], ["1"]]
      ∧ ("x" : String) = "x")
    ∧ csv_to_arff (.ok [["a"], ["1"]]) "x" = csv_to_arff (.ok [["a"], ["1"]]) "x" :=
  ⟨⟨rfl, rfl⟩,
    claim8_deterministic (.ok [["a"], ["1"]]) (.ok [["a"], ["1"]]) "x" "x" rfl rfl⟩

/-- Claim C9: a readable source with zero rows makes the conversion raise an
uncaught `IndexError` at the header access `allData[0]` (which sits outside
the read-error handler) instead of reporting and returning normally. -/
theorem claim9_zero_rows_raises_uncaught (relation : String) :
    csv_to_arff (.ok []) relation = .raised .indexError := rfl

/-- Claim C4: for every column whose inferred type is nominal, the emitted
domain is a brace-delimited comma-joined list holding exactly the distinct
normalized values of the column's data-row cells — no duplicates, ordered by
first occurrence. -/
theorem claim4_nominal_domain (header : List String)
    (dataRows : List (List String)) (relation : String) (j : Nat)
    (hj : j < header.length)
    (hLen : ∀ r ∈ header :: dataRows, header.length ≤ r.length)
    (hnom : (pipelineFinalDT header dataRows).getD j "" = "nominal") :
    csv_to_arff (.ok (header :: dataRows)) relation =
      .written (arffContent relation header.length (dataRows.length + 1)
        (emptyRowT header.length header) (pipelineAttTypes header dataRows)
        (normedRows header.length dataRows))
    ∧ (pipelineAttTypes header dataRows).getD j "" =
        "\x7b" ++ String.intercalate ","
          (dedupAcc [] (columnVals j (normedRows header.length dataRows)))
          ++ "\x7d"
    ∧ (dedupAcc [] (columnVals j (normedRows header.length dataRows))).Nodup
    ∧ (∀ x, x ∈ dedupAcc [] (columnVals j (normedRows header.length dataRows))
        ↔ x ∈ columnVals j (normedRows header.length dataRows))
    ∧ (dedupAcc [] (columnVals j (normedRows header.length dataRows))).Pairwise
        (fun a b =>
          firstIdx a (columnVals j (normedRows header.length dataRows)) <
          firstIdx b (columnVals j (normedRows header.length dataRows))) := by
  refine ⟨csv_to_arff_run_pipeline header dataRows relation hLen, ?_,
    nodup_dedupAcc _ _, ?_, pairwise_firstIdx_dedupAcc _ _⟩
  · rw [pipelineAttTypes, attTypes_getD_nominal _ _ j
      (by simpa [pipelineFinalDT, length_finalDataTypeList] using hj) hnom,
      uniqueOfColumn_getD _ _ _ hj]
  · intro x
    rw [mem_dedupAcc]
    simp

/-- Witness for C4 on one nominal column (single data value `x`). -/
theorem claim4_witness :
    ((0 : Nat) < (["a"] : List String).length
      ∧ (∀ r ∈ ([["a"], ["x"]] : List (List String)),
          (["a"] : List String).length ≤ r.length)
      ∧ (pipelineFinalDT ["a"] [["x"]]).getD 0 "" = "nominal")
    ∧ (csv_to_arff (.ok [["a"], ["x"]]) "r" =
        .written (arffContent "r" (["a"] : List String).length
          (([["x"]] : List (List String)).length + 1)
          (emptyRowT (["a"] : List String).length ["a"])
          (pipelineAttTypes ["a"] [["x"]])
          (normedRows (["a"] : List String).length [["x"]]))
      ∧ (pipelineAttTypes ["a"] [["x"]]).getD 0 "" =
          "\x7b" ++ String.intercalate ","
            (dedupAcc [] (columnVals 0 (normedRows (["a"] : List String).length
              [["x"]]))) ++ "\x7d"
      ∧ (dedupAcc [] (columnVals 0 (normedRows (["a"] : List String).length
          [["x"]]))).Nodup
      ∧ (∀ x, x ∈ dedupAcc [] (columnVals 0 (normedRows
            (["a"] : List String).length [["x"]]))
          ↔ x ∈ columnVals 0 (normedRows (["a"] : List String).length [["x"]]))
      ∧ (dedupAcc [] (columnVals 0 (normedRows (["a"] : List String).length
          [["x"]]))).Pairwise
          (fun a b =>
            firstIdx a (columnVals 0 (normedRows (["a"] : List String).length
              [["x"]])) <
            firstIdx b (columnVals 0 (normedRows (["a"] : List String).length
              [["x"]])))) :=
  ⟨⟨by decide, by decide, by decide⟩,
    claim4_nominal_domain ["a"] [["x"]] "r" 0 (by decide) (by decide) (by decide)⟩

/-- Claim C5: every empty cell of the in-memory table (header row included)
is replaced by the literal `0` before normalization and type inference;
consequently a column whose data-row cells are all empty infers as numeric. -/
theorem claim5_empty_cells_become_zero (header : List String)
    (dataRows : List (List String)) (j : Nat) (hj : j < header.length)
    (hLen : ∀ r ∈ header :: dataRows, header.length ≤ r.length)
    (hempty : ∀ r ∈ dataRows, r.getD j "" = "") :
    (∀ r ∈ header :: dataRows, (emptyRowT header.length r).getD j "" =
        (if r.getD j "" = "" then "0" else r.getD j ""))
    ∧ (pipelineFinalDT header dataRows).getD j "" = "numeric" := by
  constructor
  · intro r hr
    exact getD_emptyRowT header.length r j hj (by have := hLen r hr; omega)
  · have hall : ∀ i, i < dataRows.length →
        pyFloatParses (((normedRows header.length dataRows).getD i []).getD j "")
          = true := by
      intro i hi
      rw [normedRows_getD_getD header dataRows i j hi hj hLen,
        hempty _ (getD_mem_of_lt dataRows i [] hi)]
      decide
    rw [pipelineFinalDT_getD header dataRows j hj, if_pos hall]

/-- Witness for C5 on a one-column table whose only data cell is empty. -/
theorem claim5_witness :
    ((0 : Nat) < (["a"] : List String).length
      ∧ (∀ r ∈ ([["a"], [""]] : List (List String)),
          (["a"] : List String).length ≤ r.length)
      ∧ (∀ r ∈ ([[""]] : List (List String)), r.getD 0 "" = ""))
    ∧ ((∀ r ∈ ([["a"], [""]] : List (List String)),
          (emptyRowT (["a"] : List String).length r).getD 0 "" =
            (if r.getD 0 "" = "" then "0" else r.getD 0 ""))
      ∧ (pipelineFinalDT ["a"] [[""]]).getD 0 "" = "numeric") :=
  ⟨⟨by decide, by decide, by decide⟩,
    claim5_empty_cells_become_zero ["a"] [[""]] 0 (by decide) (by decide) (by decide)⟩

/-- Claim C6: for every table with at least one data row, the output has one
`@attribute` line per header field in header order (attribute count =
header field count), the declared instance count is `totalRows - 1`, and the
data section is the normalized rows joined by commas, one line per row, in
original order. -/
theorem claim6_output_structure (header : List String)
    (dataRows : List (List String)) (relation : String)
    (hLen : ∀ r ∈ header :: dataRows, header.length ≤ r.length)
    (_hne : dataRows ≠ []) :
    csv_to_arff (.ok (header :: dataRows)) relation =
      .written (arffContent relation header.length (dataRows.length + 1)
        (emptyRowT header.length header) (pipelineAttTypes header dataRows)
        (normedRows header.length dataRows))
    ∧ (attributeLines header.length (emptyRowT header.length header)
        (pipelineAttTypes header dataRows)).length = header.length
    ∧ dataLines (normedRows header.length dataRows) =
        (normedRows header.length dataRows).map
          (fun row => String.intercalate "," row ++ "\n")
    ∧ (dataLines (normedRows header.length dataRows)).length = dataRows.length
    ∧ dataRows.length + 1 - 1 = dataRows.length := by
  refine ⟨csv_to_arff_run_pipeline header dataRows relation hLen, ?_, rfl, ?_, ?_⟩
  · simp [attributeLines]
  · simp [dataLines, length_normedRows]
  · omega

/-- Witness for C6 on a two-column table with one data row. -/
theorem claim6_witness :
    ((∀ r ∈ ([["a", "b"], ["1", "2"]] : List (List String)),
        (["a", "b"] : List String).length ≤ r.length)
      ∧ ([["1", "2"]] : List (List String)) ≠ [])
    ∧ (csv_to_arff (.ok [["a", "b"], ["1", "2"]]) "r" =
        .written (arffContent "r" (["a", "b"] : List String).length
          (([["1", "2"]] : List (List String)).length + 1)
          (emptyRowT (["a", "b"] : List String).length ["a", "b"])
          (pipelineAttTypes ["a", "b"] [["1", "2"]])
          (normedRows (["a", "b"] : List String).length [["1", "2"]]))
      ∧ (attributeLines (["a", "b"] : List String).length
          (emptyRowT (["a", "b"] : List String).length ["a", "b"])
          (pipelineAttTypes ["a", "b"] [["1", "2"]])).length =
            (["a", "b"] : List String).length
      ∧ dataLines (normedRows (["a", "b"] : List String).length [["1", "2"]]) =
          (normedRows (["a", "b"] : List String).length [["1", "2"]]).map
            (fun row => String.intercalate "," row ++ "\n")
      ∧ (dataLines (normedRows (["a", "b"] : List String).length
          [["1", "2"]])).length = ([["1", "2"]] : List (List String)).length
      ∧ ([["1", "2"]] : List (List String)).length + 1 - 1 =
          ([["1", "2"]] : List (List String)).length) :=
  ⟨⟨by decide, by decide⟩,
    claim6_output_structure ["a", "b"] [["1", "2"]] "r" (by decide) (by decide)⟩

/-- Claim C10: header attribute names are never normalized — when every raw
header cell is non-empty, the attribute names embedded between single quotes
in the `@attribute` lines are exactly the raw header cells (not lower-cased,
not quote-escaped, not float-tested). -/
theorem claim10_header_names_verbatim (header : List String)
    (dataRows : List (List String)) (relation : String)
    (hLen : ∀ r ∈ header :: dataRows, header.length ≤ r.length)
    (hne : ∀ c ∈ header, c ≠ "") :
    emptyRowT header.length header = header
    ∧ csv_to_arff (.ok (header :: dataRows)) relation =
        .written (arffContent relation header.length (dataRows.length + 1)
          header (pipelineAttTypes header dataRows)
          (normedRows header.length dataRows))
    ∧ ∀ j, j < header.length →
        (attributeLines header.length header
            (pipelineAttTypes header dataRows)).getD j "" =
          "@attribute" ++ " " ++ String.mk [sq] ++ header.getD j ""
            ++ String.mk [sq] ++ " "
            ++ (pipelineAttTypes header dataRows).getD j "" ++ "\n" := by
  have hmap : header.map (fun c => if c = "" then "0" else c) = header.map id :=
    List.map_congr_left (fun c hc => by rw [if_neg (hne c hc)]; rfl)
  have hid : emptyRowT header.length header = header := by
    rw [emptyRowT, List.take_length, List.drop_length, List.append_nil, hmap,
      List.map_id]
  refine ⟨hid, ?_, ?_⟩
  · rw [csv_to_arff_run_pipeline header dataRows relation hLen, hid]
  · intro j hj
    rw [attributeLines, getD_range_map _ _ _ _ hj]

/-- Witness for C10 on the header `Name` (upper-case stays upper-case). -/
theorem claim10_witness :
    ((∀ r ∈ ([["Name"], ["x"]] : List (List String)),
        (["Name"] : List String).length ≤ r.length)
      ∧ (∀ c ∈ (["Name"] : List String), c ≠ ""))
    ∧ (emptyRowT (["Name"] : List String).length ["Name"] = ["Name"]
      ∧ csv_to_arff (.ok [["Name"], ["x"]]) "r" =
          .written (arffContent "r" (["Name"] : List String).length
            (([["x"]] : List (List String)).length + 1)
            ["Name"] (pipelineAttTypes ["Name"] [["x"]])
            (normedRows (["Name"] : List String).length [["x"]]))
      ∧ ∀ j, j < (["Name"] : List String).length →
          (attributeLines (["Name"] : List String).length ["Name"]
              (pipelineAttTypes ["Name"] [["x"]])).getD j "" =
            "@attribute" ++ " " ++ String.mk [sq]
              ++ (["Name"] : List String).getD j "" ++ String.mk [sq] ++ " "
              ++ (pipelineAttTypes ["Name"] [["x"]]).getD j "" ++ "\n") :=
  ⟨⟨by decide, by decide⟩,
    claim10_header_names_verbatim ["Name"] [["x"]] "r" (by decide) (by decide)⟩

end Claims

end CsvToArff
